import Mathlib

/-!
Shallow embedding of the Cryptionix trading gateway core: the order
lifecycle registry (`src/cpp/src/order/order.h`) and the WebSocket
distribution server (`src/cpp/src/websocket/ws_server.h`), plus the
market-data re-publishing hook of `src/cpp/src/main.cpp`.

The repository ships only the header declarations of `Order`,
`OrderManager`, `WSServer` and `Client`; the corresponding `.cpp`
implementation files are not part of the source tree.  Enumerations,
struct fields, signatures and default arguments are therefore embedded
from the headers, while the bodies of the operations are modelled from
the specification, as indicated on each definition.  C++ `double`
prices and amounts are modelled as rationals (the operations only copy
and compare them); timestamps are modelled as an abstract `Nat` clock
value passed to each mutating operation.
-/

namespace Cryptionix

/-- From `order.h` lines 29-34: the four order types. -/
inductive OrderType
  | LIMIT
  | MARKET
  | STOP_LIMIT
  | STOP_MARKET
deriving DecidableEq

/-- From `order.h` lines 40-43: order sides. -/
inductive OrderSide
  | BUY
  | SELL
deriving DecidableEq

/-- From `order.h` lines 49-57: the seven order statuses. -/
inductive OrderStatus
  | PENDING
  | OPEN
  | FILLED
  | PARTIALLY_FILLED
  | CANCELED
  | REJECTED
  | EXPIRED
deriving DecidableEq, Fintype

/-- Modelled from the spec: FILLED, CANCELED, REJECTED and EXPIRED are
the terminal statuses. -/
def OrderStatus.isTerminal : OrderStatus → Bool
  | .FILLED => true
  | .CANCELED => true
  | .REJECTED => true
  | .EXPIRED => true
  | _ => false

/-- From `order.h` lines 63-82: `OrderParams`. -/
structure OrderParams where
  instrument : String
  type : OrderType
  side : OrderSide
  price : ℚ
  amount : ℚ
  stopPrice : ℚ
  reduceOnly : Bool
  postOnly : Bool
  label : String
deriving DecidableEq

/-- From `order.h` lines 88-235: the mutable fields of `Order`
(`m_id` … `m_updatedAt`); the per-order mutex is not data. -/
structure Order where
  id : String
  instrument : String
  type : OrderType
  side : OrderSide
  price : ℚ
  amount : ℚ
  filledAmount : ℚ
  stopPrice : ℚ
  reduceOnly : Bool
  postOnly : Bool
  status : OrderStatus
  label : String
  createdAt : Nat
  updatedAt : Nat
deriving DecidableEq

/-- From `order.h` line 143: `getRemainingAmount` returns
`m_amount - m_filledAmount`. -/
def Order.getRemainingAmount (o : Order) : ℚ :=
  o.amount - o.filledAmount

/-- The error taxonomy of spec section 7 for `createOrder`/`modifyOrder`. -/
inductive OMError
  | ValidationError
  | NotFoundError
  | InvalidStateError
deriving DecidableEq

/-- Observer invocations fired by the registry, recorded as events:
order created / modified / canceled, and status changed with
(order id, previous status, new status). -/
inductive Event
  | orderCreated (id : String)
  | orderModified (id : String)
  | orderCanceled (id : String)
  | statusChanged (id : String) (src dst : OrderStatus)
deriving DecidableEq

/-- Association-list lookup for the registry index, first match wins
(mirrors `std::map::find` on the id key). -/
def lookupL (l : List (String × Order)) (id : String) : Option Order :=
  match l with
  | [] => none
  | (k, v) :: rest => if k = id then some v else lookupL rest id

/-- Replacing the entry of `id` in the index by `o2`. -/
def setOrderL (l : List (String × Order)) (id : String) (o2 : Order) :
    List (String × Order) :=
  l.map (fun p => if p.1 = id then (id, o2) else p)

/-- The `OrderManager` state from `order.h` lines 338-340: the id→order
index `m_orders` and the id counter `m_orderCounter` (initially 1). -/
structure OMState where
  orders : List (String × Order)
  counter : Nat
deriving DecidableEq

/-- From `order.h` line 281: `getOrder` returns the order for an id, or
nothing when the id is unknown. -/
def OMState.getOrder (s : OMState) (orderId : String) : Option Order :=
  lookupL s.orders orderId

def OMState.setOrder (s : OMState) (orderId : String) (o2 : Order) : OMState :=
  { s with orders := setOrderL s.orders orderId o2 }

/-- Result of a registry operation returning an order or an error:
the outcome, the successor registry state, and the observer events
fired. -/
structure OpResult where
  res : Except OMError Order
  state : OMState
  events : List Event

/-- Result of a registry operation returning a success flag. -/
structure FlagResult where
  ok : Bool
  state : OMState
  events : List Event
deriving DecidableEq

instance : DecidableEq (Except OMError Order) := fun a b =>
  match a, b with
  | .ok x, .ok y => decidable_of_iff (x = y) (by simp)
  | .error x, .error y => decidable_of_iff (x = y) (by simp)
  | .ok _, .error _ => isFalse (by simp)
  | .error _, .ok _ => isFalse (by simp)

instance : DecidableEq OpResult := fun a b =>
  decidable_of_iff (a.res = b.res ∧ a.state = b.state ∧ a.events = b.events)
    (by cases a; cases b; simp)

/-- Little-endian base-10 digits, structurally recursive on a fuel
argument so that it evaluates by kernel reduction. -/
def digitsAux : Nat → Nat → List Nat
  | 0, _ => []
  | _ + 1, 0 => []
  | fuel + 1, n + 1 => (n + 1) % 10 :: digitsAux fuel ((n + 1) / 10)

def natDigits (n : Nat) : List Nat :=
  digitsAux n n

/-- Decoder for `natDigits`, used to prove the id encoding injective. -/
def undigits : List Nat → Nat
  | [] => 0
  | d :: rest => d + 10 * undigits rest

/-- Modelled from the spec: `OrderManager::generateOrderId` (body not in
the source tree); a fresh id derived injectively from the value of the
monotonically increasing counter, rendered in decimal. -/
def generateOrderId (n : Nat) : String :=
  String.mk ('O' :: 'R' :: 'D' :: '-' :: ((natDigits n).reverse.map Nat.digitChar))

/-- Modelled from the spec: `OrderManager::createOrder` (body not in the
source tree).  Validates a positive amount and, for LIMIT/STOP_LIMIT, a
positive price, failing with `ValidationError` and leaving the registry
untouched; otherwise assigns the next id from the counter, sets status
PENDING, filled amount 0, created/updated timestamps to now, inserts
into the index, and fires the order-created observer. -/
def newOrder (id : String) (p : OrderParams) (now : Nat) : Order :=
  { id := id, instrument := p.instrument, type := p.type, side := p.side,
    price := p.price, amount := p.amount, filledAmount := 0,
    stopPrice := p.stopPrice, reduceOnly := p.reduceOnly,
    postOnly := p.postOnly, status := .PENDING, label := p.label,
    createdAt := now, updatedAt := now }

def createOrder (s : OMState) (p : OrderParams) (now : Nat) : OpResult :=
  if p.amount ≤ 0 then
    ⟨.error .ValidationError, s, []⟩
  else if (p.type = .LIMIT ∨ p.type = .STOP_LIMIT) ∧ p.price ≤ 0 then
    ⟨.error .ValidationError, s, []⟩
  else
    let id := generateOrderId s.counter
    let o := newOrder id p now
    ⟨.ok o, { orders := s.orders ++ [(id, o)], counter := s.counter + 1 },
      [.orderCreated id]⟩

/-- Modelled from the spec: `OrderManager::cancelOrder` (body not in the
source tree).  Absent or already-terminal id: returns false, no state
change.  Otherwise the status becomes CANCELED, the timestamp is
updated, the order-canceled and status-changed observers fire, and the
call returns true; the index entry is kept. -/
def cancelOrder (s : OMState) (orderId : String) (now : Nat) : FlagResult :=
  match s.getOrder orderId with
  | none => ⟨false, s, []⟩
  | some o =>
    if o.status.isTerminal then
      ⟨false, s, []⟩
    else
      let o2 := { o with status := .CANCELED, updatedAt := now }
      ⟨true, s.setOrder orderId o2,
        [.orderCanceled orderId, .statusChanged orderId o.status .CANCELED]⟩

/-- Modelled from the spec: `OrderManager::modifyOrder` (body not in the
source tree; the header declares `price = 0` / `amount = 0` defaults,
documented as "0 to keep current").  Unknown id: `NotFoundError`;
terminal order: `InvalidStateError`; a present (non-zero) new amount
below the filled amount: `ValidationError`; otherwise the present
fields are applied, the timestamp updated, the order-modified observer
fired and the updated order returned. -/
def modifyOrder (s : OMState) (orderId : String) (price amount : ℚ)
    (now : Nat) : OpResult :=
  match s.getOrder orderId with
  | none => ⟨.error .NotFoundError, s, []⟩
  | some o =>
    if o.status.isTerminal then
      ⟨.error .InvalidStateError, s, []⟩
    else if amount ≠ 0 ∧ amount < o.filledAmount then
      ⟨.error .ValidationError, s, []⟩
    else
      let o2 := { o with
        price := if price ≠ 0 then price else o.price,
        amount := if amount ≠ 0 then amount else o.amount,
        updatedAt := now }
      ⟨.ok o2, s.setOrder orderId o2, [.orderModified orderId]⟩

/-- Modelled from the spec: the validated status transitions of the
state machine of spec section 4.1 (the body of `Order::setStatus` is
not in the source tree). -/
def allowedTransition : OrderStatus → OrderStatus → Bool
  | .PENDING, .OPEN => true
  | .PENDING, .REJECTED => true
  | .OPEN, .PARTIALLY_FILLED => true
  | .OPEN, .FILLED => true
  | .PARTIALLY_FILLED, .FILLED => true
  | .OPEN, .CANCELED => true
  | .PARTIALLY_FILLED, .CANCELED => true
  | .OPEN, .EXPIRED => true
  | _, _ => false

/-- Modelled from the spec: the registry applying `Order::setStatus`
(body not in the source tree) to a registered order.  A transition
attempted from a status not listed for it is rejected with no state
change and `false` signalled to the caller; a committed transition
updates `updatedAt` and fires the status-changed observer with
(order, from, to). -/
def setStatus (s : OMState) (orderId : String) (st : OrderStatus)
    (now : Nat) : FlagResult :=
  match s.getOrder orderId with
  | none => ⟨false, s, []⟩
  | some o =>
    if allowedTransition o.status st then
      let o2 := { o with status := st, updatedAt := now }
      ⟨true, s.setOrder orderId o2, [.statusChanged orderId o.status st]⟩
    else
      ⟨false, s, []⟩

/-- Modelled from the spec: the registry applying a fill event through
`Order::setFilledAmount` (body not in the source tree).  Per the spec a
fill event is accepted on an OPEN or PARTIALLY_FILLED order for a
non-decreasing filled amount `f` with `0 < f ≤ amount`; it sets the
filled amount, moves the status to FILLED when `f = amount` and to
PARTIALLY_FILLED otherwise, updates the timestamp, and fires the
status-changed observer when the status changed. -/
def setFilledAmount (s : OMState) (orderId : String) (f : ℚ)
    (now : Nat) : FlagResult :=
  match s.getOrder orderId with
  | none => ⟨false, s, []⟩
  | some o =>
    if (o.status = .OPEN ∨ o.status = .PARTIALLY_FILLED) ∧
        o.filledAmount ≤ f ∧ 0 < f ∧ f ≤ o.amount then
      let st := if f = o.amount then OrderStatus.FILLED
                else OrderStatus.PARTIALLY_FILLED
      let o2 := { o with filledAmount := f, status := st, updatedAt := now }
      ⟨true, s.setOrder orderId o2,
        if st = o.status then [] else [.statusChanged orderId o.status st]⟩
    else
      ⟨false, s, []⟩

/-- The registry states reachable from the initial state (empty index,
counter 1) through the registry operations. -/
inductive Reachable : OMState → Prop
  | init : Reachable ⟨[], 1⟩
  | create {s : OMState} (p : OrderParams) (now : Nat) :
      Reachable s → Reachable (createOrder s p now).state
  | cancel {s : OMState} (orderId : String) (now : Nat) :
      Reachable s → Reachable (cancelOrder s orderId now).state
  | modify {s : OMState} (orderId : String) (price amount : ℚ) (now : Nat) :
      Reachable s → Reachable (modifyOrder s orderId price amount now).state
  | sstat {s : OMState} (orderId : String) (st : OrderStatus) (now : Nat) :
      Reachable s → Reachable (setStatus s orderId st now).state
  | sfill {s : OMState} (orderId : String) (f : ℚ) (now : Nat) :
      Reachable s → Reachable (setFilledAmount s orderId f now).state

/-- The status/filled-amount consistency invariant of spec section 3. -/
def OrderConsistent (o : Order) : Prop :=
  0 ≤ o.filledAmount ∧ o.filledAmount ≤ o.amount ∧
    (o.status = .FILLED ↔ o.filledAmount = o.amount) ∧
    (o.status = .PARTIALLY_FILLED → 0 < o.filledAmount ∧ o.filledAmount < o.amount)

instance (o : Order) : Decidable (OrderConsistent o) := by
  unfold OrderConsistent; infer_instance

/-! ### Lookup lemmas for the registry index -/

theorem lookupL_append_some {l : List (String × Order)} {id : String}
    {o : Order} (l2 : List (String × Order)) (h : lookupL l id = some o) :
    lookupL (l ++ l2) id = some o := by
  induction l with
  | nil => simp [lookupL] at h
  | cons hd tl ih =>
    obtain ⟨k, v⟩ := hd
    by_cases hk : k = id <;> simp [lookupL, hk] at h ⊢
    · exact h
    · exact ih h

theorem lookupL_append_none {l : List (String × Order)} {id : String}
    (l2 : List (String × Order)) (h : lookupL l id = none) :
    lookupL (l ++ l2) id = lookupL l2 id := by
  induction l with
  | nil => simp [lookupL]
  | cons hd tl ih =>
    obtain ⟨k, v⟩ := hd
    by_cases hk : k = id <;> simp [lookupL, hk] at h ⊢
    exact ih h

theorem lookupL_cons (k : String) (v : Order) (tl : List (String × Order))
    (id : String) :
    lookupL ((k, v) :: tl) id = if k = id then some v else lookupL tl id :=
  rfl

theorem setOrderL_cons (k : String) (v : Order) (tl : List (String × Order))
    (id : String) (o2 : Order) :
    setOrderL ((k, v) :: tl) id o2 =
      (if k = id then (id, o2) else (k, v)) :: setOrderL tl id o2 :=
  rfl

theorem lookupL_set_self {l : List (String × Order)} {id : String}
    {o : Order} (o2 : Order) (h : lookupL l id = some o) :
    lookupL (setOrderL l id o2) id = some o2 := by
  induction l with
  | nil => simp [lookupL] at h
  | cons hd tl ih =>
    obtain ⟨k, v⟩ := hd
    rw [setOrderL_cons]
    by_cases hk : k = id
    · rw [if_pos hk, lookupL_cons, if_pos rfl]
    · rw [lookupL_cons, if_neg hk] at h
      rw [if_neg hk, lookupL_cons, if_neg hk]
      exact ih h

theorem lookupL_set_ne {l : List (String × Order)} {id id2 : String}
    (o2 : Order) (h : id2 ≠ id) :
    lookupL (setOrderL l id o2) id2 = lookupL l id2 := by
  induction l with
  | nil => simp [lookupL, setOrderL]
  | cons hd tl ih =>
    obtain ⟨k, v⟩ := hd
    by_cases hk : k = id
    · subst hk
      rw [setOrderL_cons, if_pos rfl, lookupL_cons, if_neg (Ne.symm h),
        lookupL_cons, if_neg (Ne.symm h)]
      exact ih
    · rw [setOrderL_cons, if_neg hk, lookupL_cons, lookupL_cons]
      by_cases hk2 : k = id2
      · rw [if_pos hk2, if_pos hk2]
      · rw [if_neg hk2, if_neg hk2]
        exact ih

/-- Every entry found in the updated index is either the replacement
(at the updated id) or an untouched entry of the original index. -/
theorem lookupL_set_cases {l : List (String × Order)} {id id2 : String}
    {o2 o : Order} (h : lookupL (setOrderL l id o2) id2 = some o) :
    (id2 = id ∧ o = o2) ∨ lookupL l id2 = some o := by
  by_cases hid : id2 = id
  · subst hid
    induction l with
    | nil => simp [lookupL, setOrderL] at h
    | cons hd tl ih =>
      obtain ⟨k, v⟩ := hd
      rw [setOrderL_cons] at h
      by_cases hk : k = id2
      · rw [if_pos hk, lookupL_cons, if_pos rfl] at h
        exact Or.inl ⟨rfl, (Option.some_inj.mp h).symm⟩
      · rw [if_neg hk, lookupL_cons, if_neg hk] at h
        rcases ih h with h1 | h2
        · exact Or.inl h1
        · rw [lookupL_cons, if_neg hk]
          exact Or.inr h2
  · rw [lookupL_set_ne o2 hid] at h
    exact Or.inr h

/-! ### Injectivity of the order-id encoding -/

theorem digitsAux_lt (fuel n : Nat) : ∀ d ∈ digitsAux fuel n, d < 10 := by
  induction fuel generalizing n with
  | zero => intro d hd; simp [digitsAux] at hd
  | succ fuel ih =>
    intro d hd
    match n with
    | 0 => simp [digitsAux] at hd
    | m + 1 =>
      rw [digitsAux] at hd
      rcases List.mem_cons.mp hd with h1 | h2
      · subst h1; exact Nat.mod_lt _ (by omega)
      · exact ih _ _ h2

theorem undigits_digitsAux {fuel n : Nat} (h : n ≤ fuel) :
    undigits (digitsAux fuel n) = n := by
  induction fuel generalizing n with
  | zero => interval_cases n; simp [digitsAux, undigits]
  | succ fuel ih =>
    match n with
    | 0 => simp [digitsAux, undigits]
    | m + 1 =>
      rw [digitsAux, undigits, ih (by omega)]
      omega

def charVal (c : Char) : Nat :=
  c.toNat - 48

theorem charVal_digitChar : ∀ d : Nat, d < 10 → charVal (Nat.digitChar d) = d := by
  decide

theorem map_charVal_digitChar {l : List Nat} (h : ∀ d ∈ l, d < 10) :
    (l.map Nat.digitChar).map charVal = l := by
  induction l with
  | nil => simp
  | cons hd tl ih =>
    simp only [List.map_cons, List.cons.injEq]
    exact ⟨charVal_digitChar hd (h hd (List.mem_cons_self hd tl)),
      ih fun d hd2 => h d (List.mem_cons_of_mem _ hd2)⟩

/-- Decoder exhibiting `generateOrderId` as injective. -/
def decodeId (s : String) : Nat :=
  undigits (((s.data.drop 4).map charVal).reverse)

theorem decodeId_generateOrderId (n : Nat) :
    decodeId (generateOrderId n) = n := by
  have hlt : ∀ d ∈ (natDigits n).reverse, d < 10 := by
    intro d hd
    exact digitsAux_lt n n d (List.mem_reverse.mp hd)
  show undigits (((('O' :: 'R' :: 'D' :: '-' ::
      ((natDigits n).reverse.map Nat.digitChar)).drop 4).map charVal).reverse) = n
  rw [show ('O' :: 'R' :: 'D' :: '-' ::
      ((natDigits n).reverse.map Nat.digitChar)).drop 4 =
      (natDigits n).reverse.map Nat.digitChar from rfl]
  rw [map_charVal_digitChar hlt, List.reverse_reverse]
  exact undigits_digitsAux le_rfl

theorem generateOrderId_injective : Function.Injective generateOrderId :=
  Function.LeftInverse.injective decodeId_generateOrderId

/-! ### Case analyses of the registry operations -/

theorem createOrder_cases (s : OMState) (p : OrderParams) (now : Nat) :
    createOrder s p now = ⟨.error .ValidationError, s, []⟩ ∨
    (0 < p.amount ∧
      createOrder s p now =
        ⟨.ok (newOrder (generateOrderId s.counter) p now),
          ⟨s.orders ++ [(generateOrderId s.counter,
            newOrder (generateOrderId s.counter) p now)], s.counter + 1⟩,
          [.orderCreated (generateOrderId s.counter)]⟩) := by
  unfold createOrder
  split_ifs with h1 h2
  · exact Or.inl rfl
  · exact Or.inl rfl
  · exact Or.inr ⟨lt_of_not_le h1, rfl⟩

theorem cancelOrder_cases (s : OMState) (orderId : String) (now : Nat) :
    cancelOrder s orderId now = ⟨false, s, []⟩ ∨
    (∃ o : Order, s.getOrder orderId = some o ∧ o.status.isTerminal = false ∧
      cancelOrder s orderId now =
        ⟨true, s.setOrder orderId { o with status := .CANCELED, updatedAt := now },
          [.orderCanceled orderId, .statusChanged orderId o.status .CANCELED]⟩) := by
  rcases h : s.getOrder orderId with _ | o
  · exact Or.inl (by simp [cancelOrder, h])
  · by_cases ht : o.status.isTerminal = true
    · exact Or.inl (by simp [cancelOrder, h, ht])
    · exact Or.inr ⟨o, rfl, by simpa using ht, by simp [cancelOrder, h, ht]⟩

theorem modifyOrder_cases (s : OMState) (orderId : String) (pr am : ℚ)
    (now : Nat) :
    (∃ e : OMError, modifyOrder s orderId pr am now = ⟨.error e, s, []⟩) ∨
    (∃ o : Order, s.getOrder orderId = some o ∧ o.status.isTerminal = false ∧
      (am = 0 ∨ o.filledAmount ≤ am) ∧
      modifyOrder s orderId pr am now =
        ⟨.ok { o with price := if pr ≠ 0 then pr else o.price,
                      amount := if am ≠ 0 then am else o.amount,
                      updatedAt := now },
          s.setOrder orderId
            { o with price := if pr ≠ 0 then pr else o.price,
                     amount := if am ≠ 0 then am else o.amount,
                     updatedAt := now },
          [.orderModified orderId]⟩) := by
  rcases h : s.getOrder orderId with _ | o
  · exact Or.inl ⟨.NotFoundError, by simp [modifyOrder, h]⟩
  · by_cases ht : o.status.isTerminal = true
    · exact Or.inl ⟨.InvalidStateError, by simp [modifyOrder, h, ht]⟩
    · by_cases hv : am ≠ 0 ∧ am < o.filledAmount
      · exact Or.inl ⟨.ValidationError, by simp [modifyOrder, h, ht, hv]⟩
      · refine Or.inr ⟨o, rfl, by simpa using ht, ?_, by simp [modifyOrder, h, ht, hv]⟩
        by_cases hz : am = 0
        · exact Or.inl hz
        · exact Or.inr (le_of_not_lt fun hlt => hv ⟨hz, hlt⟩)

theorem setStatus_cases (s : OMState) (orderId : String) (st : OrderStatus)
    (now : Nat) :
    setStatus s orderId st now = ⟨false, s, []⟩ ∨
    (∃ o : Order, s.getOrder orderId = some o ∧
      allowedTransition o.status st = true ∧
      setStatus s orderId st now =
        ⟨true, s.setOrder orderId { o with status := st, updatedAt := now },
          [.statusChanged orderId o.status st]⟩) := by
  rcases h : s.getOrder orderId with _ | o
  · exact Or.inl (by simp [setStatus, h])
  · by_cases ha : allowedTransition o.status st = true
    · exact Or.inr ⟨o, rfl, ha, by simp [setStatus, h, ha]⟩
    · exact Or.inl (by simp [setStatus, h, ha])

theorem setFilledAmount_cases (s : OMState) (orderId : String) (f : ℚ)
    (now : Nat) :
    setFilledAmount s orderId f now = ⟨false, s, []⟩ ∨
    (∃ o : Order, s.getOrder orderId = some o ∧
      (o.status = .OPEN ∨ o.status = .PARTIALLY_FILLED) ∧
      o.filledAmount ≤ f ∧ 0 < f ∧ f ≤ o.amount ∧
      setFilledAmount s orderId f now =
        ⟨true,
          s.setOrder orderId
            { o with filledAmount := f,
                     status := if f = o.amount then OrderStatus.FILLED
                               else OrderStatus.PARTIALLY_FILLED,
                     updatedAt := now },
          if (if f = o.amount then OrderStatus.FILLED
              else OrderStatus.PARTIALLY_FILLED) = o.status then []
          else [.statusChanged orderId o.status
            (if f = o.amount then OrderStatus.FILLED
             else OrderStatus.PARTIALLY_FILLED)]⟩) := by
  rcases h : s.getOrder orderId with _ | o
  · exact Or.inl (by simp [setFilledAmount, h])
  · by_cases hc : (o.status = .OPEN ∨ o.status = .PARTIALLY_FILLED) ∧
      o.filledAmount ≤ f ∧ 0 < f ∧ f ≤ o.amount
    · exact Or.inr ⟨o, rfl, hc.1, hc.2.1, hc.2.2.1, hc.2.2.2,
        by simp only [setFilledAmount, h, if_pos hc]⟩
    · exact Or.inl (by simp only [setFilledAmount, h, if_neg hc])

/-! ### Invariant machinery -/

theorem getOrder_mk (l : List (String × Order)) (c : Nat) (id : String) :
    OMState.getOrder ⟨l, c⟩ id = lookupL l id :=
  rfl

theorem lookupL_append_singleton_cases {l : List (String × Order)}
    {k : String} {v : Order} {id : String} {o : Order}
    (h : lookupL (l ++ [(k, v)]) id = some o) :
    lookupL l id = some o ∨ (id = k ∧ o = v) := by
  cases h2 : lookupL l id with
  | some o2 =>
    rw [lookupL_append_some _ h2] at h
    exact Or.inl h
  | none =>
    rw [lookupL_append_none _ h2] at h
    by_cases hk : k = id
    · rw [lookupL, if_pos hk] at h
      exact Or.inr ⟨hk.symm, (Option.some_inj.mp h).symm⟩
    · rw [lookupL, if_neg hk] at h
      simp [lookupL] at h

theorem getOrder_setOrder_cases {s : OMState} {oid id : String}
    {o2 o : Order} (h : (s.setOrder oid o2).getOrder id = some o) :
    (id = oid ∧ o = o2) ∨ s.getOrder id = some o :=
  lookupL_set_cases h

theorem getOrder_setOrder_self {s : OMState} {oid : String} {o : Order}
    (o2 : Order) (h : s.getOrder oid = some o) :
    (s.setOrder oid o2).getOrder oid = some o2 :=
  lookupL_set_self o2 h

theorem isTerminal_false_ne_FILLED {st : OrderStatus}
    (h : st.isTerminal = false) : st ≠ .FILLED := by
  intro hh
  rw [hh] at h
  simp [OrderStatus.isTerminal] at h

theorem allowedTransition_src_not_terminal :
    ∀ a b : OrderStatus, allowedTransition a b = true → a.isTerminal = false := by
  decide

/-- The per-order bound invariant: `0 ≤ filledAmount ≤ amount` for every
registered order. -/
def BoundsOK (s : OMState) : Prop :=
  ∀ id o, s.getOrder id = some o →
    0 ≤ o.filledAmount ∧ o.filledAmount ≤ o.amount

/-- Every order of every reachable registry state satisfies
`0 ≤ filledAmount ≤ amount`. -/
theorem reachable_bounds {s : OMState} (h : Reachable s) : BoundsOK s := by
  induction h with
  | init =>
    intro id o h2
    rw [getOrder_mk] at h2
    simp [lookupL] at h2
  | @create s p now hr ih =>
    intro id o h2
    rcases createOrder_cases s p now with hc | ⟨hpos, hc⟩
    · rw [hc] at h2
      exact ih id o h2
    · rw [hc] at h2
      rcases lookupL_append_singleton_cases h2 with h3 | ⟨_, rfl⟩
      · exact ih id o h3
      · exact ⟨le_refl 0, le_of_lt hpos⟩
  | @cancel s oid now hr ih =>
    intro id o h2
    rcases cancelOrder_cases s oid now with hc | ⟨o1, hpre, hterm, hc⟩
    · rw [hc] at h2
      exact ih id o h2
    · rw [hc] at h2
      rcases getOrder_setOrder_cases h2 with ⟨_, rfl⟩ | h3
      · exact ih oid o1 hpre
      · exact ih id o h3
  | @modify s oid pr am now hr ih =>
    intro id o h2
    rcases modifyOrder_cases s oid pr am now with ⟨e, hc⟩ | ⟨o1, hpre, hterm, hval, hc⟩
    · rw [hc] at h2
      exact ih id o h2
    · rw [hc] at h2
      rcases getOrder_setOrder_cases h2 with ⟨_, rfl⟩ | h3
      · refine ⟨(ih oid o1 hpre).1, ?_⟩
        by_cases hz : am = 0
        · simpa [hz] using (ih oid o1 hpre).2
        · rcases hval with hval | hval
          · exact absurd hval hz
          · simpa [hz] using hval
      · exact ih id o h3
  | @sstat s oid st now hr ih =>
    intro id o h2
    rcases setStatus_cases s oid st now with hc | ⟨o1, hpre, hall, hc⟩
    · rw [hc] at h2
      exact ih id o h2
    · rw [hc] at h2
      rcases getOrder_setOrder_cases h2 with ⟨_, rfl⟩ | h3
      · exact ih oid o1 hpre
      · exact ih id o h3
  | @sfill s oid f now hr ih =>
    intro id o h2
    rcases setFilledAmount_cases s oid f now with hc | ⟨o1, hpre, hst, hmono, hpos, hle, hc⟩
    · rw [hc] at h2
      exact ih id o h2
    · rw [hc] at h2
      rcases getOrder_setOrder_cases h2 with ⟨_, rfl⟩ | h3
      · exact ⟨le_of_lt hpos, hle⟩
      · exact ih id o h3

/-- All registered orders are status/filled-amount consistent. -/
def ConsistentAll (s : OMState) : Prop :=
  ∀ id o, s.getOrder id = some o → OrderConsistent o

theorem consistent_not_FILLED_ne {o : Order} (h : OrderConsistent o)
    (hne : o.status ≠ .FILLED) : o.filledAmount ≠ o.amount :=
  fun heq => hne (h.2.2.1.mpr heq)

theorem createOrder_consistent {s : OMState} (p : OrderParams) (now : Nat)
    (h : ConsistentAll s) : ConsistentAll (createOrder s p now).state := by
  intro id o h2
  rcases createOrder_cases s p now with hc | ⟨hpos, hc⟩
  · rw [hc] at h2
    exact h id o h2
  · rw [hc] at h2
    rcases lookupL_append_singleton_cases h2 with h3 | ⟨_, rfl⟩
    · exact h id o h3
    · refine ⟨le_refl 0, le_of_lt hpos, ⟨fun hst => ?_, fun hf => ?_⟩, fun hst => ?_⟩
      · exact absurd hst (by simp [newOrder])
      · exact absurd hf.symm (ne_of_gt (by simpa [newOrder] using hpos))
      · exact absurd hst (by simp [newOrder])

theorem cancelOrder_consistent {s : OMState} (orderId : String) (now : Nat)
    (h : ConsistentAll s) : ConsistentAll (cancelOrder s orderId now).state := by
  intro id o h2
  rcases cancelOrder_cases s orderId now with hc | ⟨o1, hpre, hterm, hc⟩
  · rw [hc] at h2
    exact h id o h2
  · rw [hc] at h2
    rcases getOrder_setOrder_cases h2 with ⟨_, rfl⟩ | h3
    · have hco := h orderId o1 hpre
      have hne := consistent_not_FILLED_ne hco (isTerminal_false_ne_FILLED hterm)
      exact ⟨hco.1, hco.2.1,
        ⟨fun hst => absurd hst (by simp), fun hf => absurd hf hne⟩,
        fun hst => absurd hst (by simp)⟩
    · exact h id o h3

theorem setFilledAmount_consistent {s : OMState} (orderId : String) (f : ℚ)
    (now : Nat) (h : ConsistentAll s) :
    ConsistentAll (setFilledAmount s orderId f now).state := by
  intro id o h2
  rcases setFilledAmount_cases s orderId f now with
    hc | ⟨o1, hpre, hst, hmono, hpos, hle, hc⟩
  · rw [hc] at h2
    exact h id o h2
  · rw [hc] at h2
    rcases getOrder_setOrder_cases h2 with ⟨_, rfl⟩ | h3
    · by_cases hf : f = o1.amount
      · refine ⟨le_of_lt hpos, hle, ⟨fun _ => hf, fun _ => by simp [hf]⟩,
          fun hstx => ?_⟩
        simp only [if_pos hf] at hstx
        exact absurd hstx (by simp)
      · refine ⟨le_of_lt hpos, hle,
          ⟨fun hstx => ?_, fun hfx => absurd hfx hf⟩,
          fun _ => ⟨hpos, lt_of_le_of_ne hle hf⟩⟩
        simp only [if_neg hf] at hstx
        exact absurd hstx (by simp)
    · exact h id o h3

theorem modifyOrder_consistent {s : OMState} (orderId : String) (pr am : ℚ)
    (now : Nat) (h : ConsistentAll s)
    (hcond : ∀ o, s.getOrder orderId = some o → am ≠ 0 → o.filledAmount < am) :
    ConsistentAll (modifyOrder s orderId pr am now).state := by
  intro id o h2
  rcases modifyOrder_cases s orderId pr am now with
    ⟨e, hc⟩ | ⟨o1, hpre, hterm, hval, hc⟩
  · rw [hc] at h2
    exact h id o h2
  · rw [hc] at h2
    rcases getOrder_setOrder_cases h2 with ⟨_, rfl⟩ | h3
    · have hco := h orderId o1 hpre
      have hne1 := isTerminal_false_ne_FILLED hterm
      by_cases hz : am = 0
      · simp only [hz, ne_eq, not_true_eq_false, false_and, if_false,
          not_not] at *
        exact ⟨hco.1, by simpa [hz] using hco.2.1,
          ⟨fun hstx => absurd hstx hne1,
           fun hfx => absurd hfx (consistent_not_FILLED_ne hco hne1)⟩,
          fun hstx => (hco.2.2.2 hstx)⟩
      · have hlt := hcond o1 hpre hz
        exact ⟨hco.1, by simpa [hz] using le_of_lt hlt,
          ⟨fun hstx => absurd hstx hne1,
           fun hfx => absurd hfx (by simpa [hz] using ne_of_lt hlt)⟩,
          fun hstx => ⟨(hco.2.2.2 hstx).1, by simpa [hz] using hlt⟩⟩
    · exact h id o h3

theorem setStatus_consistent {s : OMState} (orderId : String)
    (st : OrderStatus) (now : Nat) (h : ConsistentAll s)
    (hF : st ≠ .FILLED) (hPF : st ≠ .PARTIALLY_FILLED) :
    ConsistentAll (setStatus s orderId st now).state := by
  intro id o h2
  rcases setStatus_cases s orderId st now with hc | ⟨o1, hpre, hall, hc⟩
  · rw [hc] at h2
    exact h id o h2
  · rw [hc] at h2
    rcases getOrder_setOrder_cases h2 with ⟨_, rfl⟩ | h3
    · have hco := h orderId o1 hpre
      have hsrc := isTerminal_false_ne_FILLED
        (allowedTransition_src_not_terminal _ _ hall)
      have hne2 := consistent_not_FILLED_ne hco hsrc
      exact ⟨hco.1, hco.2.1,
        ⟨fun hstx => absurd hstx hF, fun hfx => absurd hfx hne2⟩,
        fun hstx => absurd hstx hPF⟩
    · exact h id o h3

/-! ### Claim C1 -/

/-- Concrete run exhibiting the failure of claim C1: a LIMIT order is
created, acknowledged (PENDING → OPEN), and then `setStatus` commits the
listed transition OPEN → FILLED although nothing has been filled. -/
def c1Params : OrderParams :=
  { instrument := "BTC-PERPETUAL", type := .LIMIT, side := .BUY,
    price := 5, amount := 10, stopPrice := 0, reduceOnly := false,
    postOnly := false, label := "" }

def c1S1 : OMState := (createOrder ⟨[], 1⟩ c1Params 0).state

def c1S2 : OMState := (setStatus c1S1 "ORD-1" .OPEN 1).state

def c1S3 : OMState := (setStatus c1S2 "ORD-1" .FILLED 2).state

def c1BadOrder : Order :=
  { id := "ORD-1", instrument := "BTC-PERPETUAL", type := .LIMIT,
    side := .BUY, price := 5, amount := 10, filledAmount := 0,
    stopPrice := 0, reduceOnly := false, postOnly := false,
    status := .FILLED, label := "", createdAt := 0, updatedAt := 2 }

/-- C1, counterexample: the registry state `c1S3` is reachable, yet its
order "ORD-1" has status FILLED with `filledAmount = 0 ≠ 10 = amount`,
so the claimed invariant `status = FILLED ↔ filledAmount = amount` does
not hold at every observation point and `setStatus` does not preserve
it. -/
theorem claim_C1_counterexample :
    Reachable c1S3 ∧ c1S3.getOrder "ORD-1" = some c1BadOrder ∧
      ¬ OrderConsistent c1BadOrder :=
  ⟨Reachable.sstat "ORD-1" .FILLED 2
      (Reachable.sstat "ORD-1" .OPEN 1
        (Reachable.create c1Params 0 Reachable.init)),
    by decide, by decide⟩

/-- C1, amended: every order of every reachable registry state satisfies
`0 ≤ filledAmount ≤ amount` (so the remaining amount is never
negative), and the full status/filled-amount consistency invariant
(`FILLED ↔ filledAmount = amount`, `PARTIALLY_FILLED → 0 < filledAmount
< amount`) is preserved by `createOrder`, `cancelOrder` and
`setFilledAmount` unconditionally, by `modifyOrder` whenever a present
new amount strictly exceeds the order's filled amount, and by
`setStatus` whenever the target status is not FILLED and not
PARTIALLY_FILLED (a bare `setStatus` to FILLED or PARTIALLY_FILLED can
break consistency, as the counterexample shows). -/
theorem claim_C1 :
    (∀ s : OMState, Reachable s → ∀ id o, s.getOrder id = some o →
      0 ≤ o.filledAmount ∧ o.filledAmount ≤ o.amount ∧
        0 ≤ o.getRemainingAmount) ∧
    (∀ (s : OMState) (p : OrderParams) (now : Nat), ConsistentAll s →
      ConsistentAll (createOrder s p now).state) ∧
    (∀ (s : OMState) (orderId : String) (now : Nat), ConsistentAll s →
      ConsistentAll (cancelOrder s orderId now).state) ∧
    (∀ (s : OMState) (orderId : String) (f : ℚ) (now : Nat),
      ConsistentAll s → ConsistentAll (setFilledAmount s orderId f now).state) ∧
    (∀ (s : OMState) (orderId : String) (pr am : ℚ) (now : Nat),
      ConsistentAll s →
      (∀ o, s.getOrder orderId = some o → am ≠ 0 → o.filledAmount < am) →
      ConsistentAll (modifyOrder s orderId pr am now).state) ∧
    (∀ (s : OMState) (orderId : String) (st : OrderStatus) (now : Nat),
      ConsistentAll s → st ≠ .FILLED → st ≠ .PARTIALLY_FILLED →
      ConsistentAll (setStatus s orderId st now).state) := by
  refine ⟨fun s hr id o h2 => ?_, fun s p now h => createOrder_consistent p now h,
    fun s oid now h => cancelOrder_consistent oid now h,
    fun s oid f now h => setFilledAmount_consistent oid f now h,
    fun s oid pr am now h hc => modifyOrder_consistent oid pr am now h hc,
    fun s oid st now h hF hPF => setStatus_consistent oid st now h hF hPF⟩
  have hb := reachable_bounds hr id o h2
  exact ⟨hb.1, hb.2, by unfold Order.getRemainingAmount; linarith [hb.2]⟩

/-- C1, witness: the amended theorem applied to the reachable one-order
state `c1S1`, whose order "ORD-1" is PENDING with amount 10. -/
theorem claim_C1_witness :
    0 ≤ (newOrder "ORD-1" c1Params 0).filledAmount ∧
      (newOrder "ORD-1" c1Params 0).filledAmount ≤
        (newOrder "ORD-1" c1Params 0).amount ∧
      0 ≤ (newOrder "ORD-1" c1Params 0).getRemainingAmount :=
  claim_C1.1 c1S1 (Reachable.create c1Params 0 Reachable.init)
    "ORD-1" (newOrder "ORD-1" c1Params 0) (by decide)

/-! ### Claim C2 -/

theorem not_terminal_cancel_transition :
    ∀ st : OrderStatus, st.isTerminal = false →
      allowedTransition st .CANCELED = true ∨ st = .PENDING := by
  decide

theorem terminal_no_transition :
    ∀ a b : OrderStatus, a.isTerminal = true → allowedTransition a b = false := by
  decide

theorem terminal_not_open_pf :
    ∀ a : OrderStatus, a.isTerminal = true →
      ¬(a = .OPEN ∨ a = .PARTIALLY_FILLED) := by
  decide

def c2Params : OrderParams :=
  { instrument := "ETH-PERPETUAL", type := .LIMIT, side := .SELL,
    price := 7, amount := 3, stopPrice := 0, reduceOnly := false,
    postOnly := false, label := "" }

def c2S1 : OMState := (createOrder ⟨[], 1⟩ c2Params 0).state

/-- C2, counterexample: in the reachable registry state `c2S1` the
order "ORD-1" is PENDING; PENDING → CANCELED is not among the listed
transitions, yet `cancelOrder` (which cancels any non-terminal order)
commits it with a state change and reports success, so the status does
not follow the claimed state machine with exactly the listed
transitions. -/
theorem claim_C2_counterexample :
    Reachable c2S1 ∧
      c2S1.getOrder "ORD-1" = some (newOrder "ORD-1" c2Params 0) ∧
      (newOrder "ORD-1" c2Params 0).status = .PENDING ∧
      allowedTransition .PENDING .CANCELED = false ∧
      (cancelOrder c2S1 "ORD-1" 1).ok = true ∧
      (cancelOrder c2S1 "ORD-1" 1).state.getOrder "ORD-1" =
        some { newOrder "ORD-1" c2Params 0 with
                 status := .CANCELED, updatedAt := 1 } :=
  ⟨Reachable.create c2Params 0 Reachable.init, by decide, rfl, rfl,
    by decide, by decide⟩

/-- C2, amended: orders are created PENDING; `setStatus` commits exactly
the listed transitions (PENDING→OPEN, PENDING→REJECTED,
OPEN→PARTIALLY_FILLED, OPEN→FILLED, PARTIALLY_FILLED→FILLED,
OPEN→CANCELED, PARTIALLY_FILLED→CANCELED, OPEN→EXPIRED), rejecting any
other attempt with no state change and `false` signalled to the caller;
a committed `setStatus` or `cancelOrder` transition updates `updatedAt`
and fires the status-changed observer with (order, from, to); fill
events commit only listed transitions; `cancelOrder`, however,
additionally commits PENDING→CANCELED, since it cancels every
non-terminal order; and once an order is terminal none of the registry
operations mutates its price, amount or status. -/
theorem claim_C2 :
    (∀ (s : OMState) (p : OrderParams) (now : Nat) (o : Order),
      (createOrder s p now).res = .ok o → o.status = .PENDING) ∧
    (∀ (s : OMState) (orderId : String) (st : OrderStatus) (now : Nat)
      (o : Order), s.getOrder orderId = some o →
      (allowedTransition o.status st = false →
        setStatus s orderId st now = ⟨false, s, []⟩) ∧
      (allowedTransition o.status st = true →
        setStatus s orderId st now =
          ⟨true, s.setOrder orderId { o with status := st, updatedAt := now },
            [.statusChanged orderId o.status st]⟩)) ∧
    (∀ (s : OMState) (orderId : String) (now : Nat) (o : Order),
      s.getOrder orderId = some o → o.status.isTerminal = false →
      cancelOrder s orderId now =
        ⟨true, s.setOrder orderId { o with status := .CANCELED, updatedAt := now },
          [.orderCanceled orderId, .statusChanged orderId o.status .CANCELED]⟩ ∧
      (allowedTransition o.status .CANCELED = true ∨ o.status = .PENDING)) ∧
    (∀ (s : OMState) (orderId : String) (f : ℚ) (now : Nat) (o o2 : Order),
      s.getOrder orderId = some o →
      (setFilledAmount s orderId f now).state.getOrder orderId = some o2 →
      o2.status = o.status ∨
        (allowedTransition o.status o2.status = true ∧ o2.updatedAt = now ∧
          (setFilledAmount s orderId f now).events =
            [.statusChanged orderId o.status o2.status])) ∧
    (∀ (s : OMState) (orderId : String) (o : Order)
      (pr am f : ℚ) (st : OrderStatus) (now : Nat),
      s.getOrder orderId = some o → o.status.isTerminal = true →
      modifyOrder s orderId pr am now = ⟨.error .InvalidStateError, s, []⟩ ∧
      cancelOrder s orderId now = ⟨false, s, []⟩ ∧
      setStatus s orderId st now = ⟨false, s, []⟩ ∧
      setFilledAmount s orderId f now = ⟨false, s, []⟩) := by
  refine ⟨?_, ?_, ?_, ?_, ?_⟩
  · intro s p now o hres
    rcases createOrder_cases s p now with hc | ⟨hpos, hc⟩
    · rw [hc] at hres
      exact absurd hres (by simp)
    · rw [hc] at hres
      simp only [OpResult.res] at hres
      rw [← Except.ok.inj hres]
      rfl
  · intro s oid st now o h
    constructor
    · intro hfalse
      simp [setStatus, h, hfalse]
    · intro htrue
      simp [setStatus, h, htrue]
  · intro s oid now o h hterm
    refine ⟨by simp [cancelOrder, h, hterm], ?_⟩
    exact not_terminal_cancel_transition o.status hterm
  · intro s oid f now o o2 h h2
    rcases setFilledAmount_cases s oid f now with hc | ⟨o1, hpre, hst, hmono, hpos, hle, hc⟩
    · rw [hc] at h2
      rw [h] at h2
      exact Or.inl (congrArg Order.status (Option.some_inj.mp h2)).symm
    · rw [hpre] at h
      have ho : o1 = o := Option.some_inj.mp h
      subst ho
      rw [hc] at h2
      have h3 := getOrder_setOrder_self
        ({ o1 with
          filledAmount := f,
          status := if f = o1.amount then OrderStatus.FILLED
                    else OrderStatus.PARTIALLY_FILLED,
          updatedAt := now }) hpre
      rw [h3] at h2
      have ho2 := Option.some_inj.mp h2
      subst ho2
      by_cases hf : f = o1.amount
      · right
        rcases hst with hOPEN | hPF
        · exact ⟨by simp [hf, hOPEN, allowedTransition], rfl,
            by rw [hc]; simp [hf, hOPEN]⟩
        · exact ⟨by simp [hf, hPF, allowedTransition], rfl,
            by rw [hc]; simp [hf, hPF]⟩
      · rcases hst with hOPEN | hPF
        · right
          exact ⟨by simp [hf, hOPEN, allowedTransition], rfl,
            by rw [hc]; simp [hf, hOPEN]⟩
        · left
          simp [hf, hPF]
  · intro s oid o pr am f st now h hterm
    refine ⟨by simp [modifyOrder, h, hterm], by simp [cancelOrder, h, hterm],
      ?_, ?_⟩
    · simp [setStatus, h, terminal_no_transition o.status st hterm]
    · simp [setFilledAmount, h, terminal_not_open_pf o.status hterm]

/-- C2, witness: a freshly created order is PENDING, obtained by the
amended theorem at a concrete creation. -/
theorem claim_C2_witness :
    (newOrder "ORD-1" c2Params 5).status = .PENDING :=
  claim_C2.1 ⟨[], 1⟩ c2Params 5 (newOrder "ORD-1" c2Params 5) (by decide)

/-! ### Claims C3, C4, C5, C9 -/

/-- C3: `modifyOrder` fails with `NotFoundError` on an unknown id, with
`InvalidStateError` on a terminal order, and with `ValidationError` when
a present (non-zero) new amount is below the filled amount, in each case
leaving the registry (hence every order) unchanged and firing no
observer; on success the updated order is returned, stored, its
`updatedAt` refreshed, and the order-modified observer fires. -/
theorem claim_C3 (s : OMState) (orderId : String) (pr am : ℚ) (now : Nat) :
    (s.getOrder orderId = none →
      modifyOrder s orderId pr am now = ⟨.error .NotFoundError, s, []⟩) ∧
    (∀ o, s.getOrder orderId = some o → o.status.isTerminal = true →
      modifyOrder s orderId pr am now = ⟨.error .InvalidStateError, s, []⟩) ∧
    (∀ o, s.getOrder orderId = some o → o.status.isTerminal = false →
      am ≠ 0 → am < o.filledAmount →
      modifyOrder s orderId pr am now = ⟨.error .ValidationError, s, []⟩) ∧
    (∀ o, s.getOrder orderId = some o → o.status.isTerminal = false →
      (am = 0 ∨ o.filledAmount ≤ am) →
      modifyOrder s orderId pr am now =
        ⟨.ok { o with price := if pr ≠ 0 then pr else o.price,
                      amount := if am ≠ 0 then am else o.amount,
                      updatedAt := now },
          s.setOrder orderId
            { o with price := if pr ≠ 0 then pr else o.price,
                     amount := if am ≠ 0 then am else o.amount,
                     updatedAt := now },
          [.orderModified orderId]⟩ ∧
      (modifyOrder s orderId pr am now).state.getOrder orderId =
        some { o with price := if pr ≠ 0 then pr else o.price,
                      amount := if am ≠ 0 then am else o.amount,
                      updatedAt := now }) := by
  refine ⟨?_, ?_, ?_, ?_⟩
  · intro h
    simp [modifyOrder, h]
  · intro o h ht
    simp [modifyOrder, h, ht]
  · intro o h ht hnz hlt
    simp only [modifyOrder, h, ht]
    rw [if_neg (by simp), if_pos ⟨hnz, hlt⟩]
  · intro o h ht hor
    have hv : ¬(am ≠ 0 ∧ am < o.filledAmount) := by
      rcases hor with hz | hle
      · exact fun hand => hand.1 hz
      · exact fun hand => absurd hle (not_le_of_lt hand.2)
    have he : modifyOrder s orderId pr am now =
        ⟨.ok { o with price := if pr ≠ 0 then pr else o.price,
                      amount := if am ≠ 0 then am else o.amount,
                      updatedAt := now },
          s.setOrder orderId
            { o with price := if pr ≠ 0 then pr else o.price,
                     amount := if am ≠ 0 then am else o.amount,
                     updatedAt := now },
          [.orderModified orderId]⟩ := by
      simp only [modifyOrder, h]
      rw [if_neg (by simp [ht]), if_neg hv]
    refine ⟨he, ?_⟩
    rw [he]
    exact getOrder_setOrder_self _ h

def c3Order : Order :=
  { id := "A", instrument := "BTC-PERPETUAL", type := .LIMIT, side := .BUY,
    price := 5, amount := 10, filledAmount := 4, stopPrice := 0,
    reduceOnly := false, postOnly := false, status := .PARTIALLY_FILLED,
    label := "", createdAt := 0, updatedAt := 0 }

def c3S : OMState := ⟨[("A", c3Order)], 2⟩

/-- C3, witness: on an order filled to 4, `modifyOrder` with new amount
2 fails with `ValidationError` and changes nothing (spec scenario B). -/
theorem claim_C3_witness :
    modifyOrder c3S "A" 6 2 1 = ⟨.error .ValidationError, c3S, []⟩ :=
  (claim_C3 c3S "A" 6 2 1).2.2.1 c3Order (by decide) (by decide)
    (by decide) (by decide)

/-- C4: `createOrder` fails with `ValidationError`, inserting nothing
and firing no observer, when the amount is non-positive or when a
LIMIT/STOP_LIMIT order has a non-positive price; otherwise it returns a
new PENDING order with filled amount 0 carrying the instrument, type,
side, price and amount of the parameters, and appends it to the
index. -/
theorem claim_C4 (s : OMState) (p : OrderParams) (now : Nat) :
    (p.amount ≤ 0 ∨ ((p.type = .LIMIT ∨ p.type = .STOP_LIMIT) ∧ p.price ≤ 0) →
      createOrder s p now = ⟨.error .ValidationError, s, []⟩) ∧
    (¬(p.amount ≤ 0 ∨ ((p.type = .LIMIT ∨ p.type = .STOP_LIMIT) ∧ p.price ≤ 0)) →
      (createOrder s p now).res =
        .ok (newOrder (generateOrderId s.counter) p now) ∧
      (newOrder (generateOrderId s.counter) p now).status = .PENDING ∧
      (newOrder (generateOrderId s.counter) p now).filledAmount = 0 ∧
      (newOrder (generateOrderId s.counter) p now).instrument = p.instrument ∧
      (newOrder (generateOrderId s.counter) p now).type = p.type ∧
      (newOrder (generateOrderId s.counter) p now).side = p.side ∧
      (newOrder (generateOrderId s.counter) p now).price = p.price ∧
      (newOrder (generateOrderId s.counter) p now).amount = p.amount ∧
      (createOrder s p now).state.orders =
        s.orders ++ [(generateOrderId s.counter,
          newOrder (generateOrderId s.counter) p now)]) := by
  constructor
  · intro h
    unfold createOrder
    by_cases h1 : p.amount ≤ 0
    · rw [if_pos h1]
    · rw [if_neg h1]
      rcases h with ha | hb
      · exact absurd ha h1
      · rw [if_pos hb]
  · intro h
    unfold createOrder
    rw [if_neg (fun h1 => h (Or.inl h1)), if_neg (fun h2 => h (Or.inr h2))]
    exact ⟨rfl, rfl, rfl, rfl, rfl, rfl, rfl, rfl, rfl⟩

def c4Params : OrderParams :=
  { instrument := "BTC-PERPETUAL", type := .LIMIT, side := .BUY,
    price := 50000, amount := 10, stopPrice := 0, reduceOnly := false,
    postOnly := false, label := "" }

/-- C4, witness: creating a LIMIT BUY of amount 10 at price 50000
(spec scenario A) yields a PENDING order with filled amount 0 and the
given fields. -/
theorem claim_C4_witness :
    (createOrder ⟨[], 1⟩ c4Params 0).res =
      .ok (newOrder (generateOrderId 1) c4Params 0) ∧
    (newOrder (generateOrderId 1) c4Params 0).status = .PENDING ∧
    (newOrder (generateOrderId 1) c4Params 0).filledAmount = 0 ∧
    (newOrder (generateOrderId 1) c4Params 0).instrument = c4Params.instrument ∧
    (newOrder (generateOrderId 1) c4Params 0).type = c4Params.type ∧
    (newOrder (generateOrderId 1) c4Params 0).side = c4Params.side ∧
    (newOrder (generateOrderId 1) c4Params 0).price = c4Params.price ∧
    (newOrder (generateOrderId 1) c4Params 0).amount = c4Params.amount ∧
    (createOrder ⟨[], 1⟩ c4Params 0).state.orders =
      (⟨[], 1⟩ : OMState).orders ++ [(generateOrderId 1,
        newOrder (generateOrderId 1) c4Params 0)] :=
  (claim_C4 ⟨[], 1⟩ c4Params 0).2 (by decide)

/-- C5: `cancelOrder` on an absent or already-terminal id returns false
and changes nothing; on a registered non-terminal order the first call
sets status CANCELED, refreshes the timestamp, fires the order-canceled
and status-changed observers and returns true, the canceled order stays
in the index and remains returned by `getOrder`, and every later
`cancelOrder` on the same id returns false and leaves the state (hence
the CANCELED status) unchanged. -/
theorem claim_C5 (s : OMState) (orderId : String) (now now2 : Nat) :
    (s.getOrder orderId = none → cancelOrder s orderId now = ⟨false, s, []⟩) ∧
    (∀ o, s.getOrder orderId = some o → o.status.isTerminal = true →
      cancelOrder s orderId now = ⟨false, s, []⟩) ∧
    (∀ o, s.getOrder orderId = some o → o.status.isTerminal = false →
      cancelOrder s orderId now =
        ⟨true, s.setOrder orderId { o with status := .CANCELED, updatedAt := now },
          [.orderCanceled orderId, .statusChanged orderId o.status .CANCELED]⟩ ∧
      (cancelOrder s orderId now).state.getOrder orderId =
        some { o with status := .CANCELED, updatedAt := now } ∧
      cancelOrder (cancelOrder s orderId now).state orderId now2 =
        ⟨false, (cancelOrder s orderId now).state, []⟩) := by
  refine ⟨?_, ?_, ?_⟩
  · intro h
    simp [cancelOrder, h]
  · intro o h ht
    simp [cancelOrder, h, ht]
  · intro o h ht
    have he : cancelOrder s orderId now =
        ⟨true, s.setOrder orderId { o with status := .CANCELED, updatedAt := now },
          [.orderCanceled orderId, .statusChanged orderId o.status .CANCELED]⟩ := by
      simp only [cancelOrder, h]
      rw [if_neg (by simp [ht])]
    have hg : (cancelOrder s orderId now).state.getOrder orderId =
        some { o with status := .CANCELED, updatedAt := now } := by
      rw [he]
      exact getOrder_setOrder_self _ h
    refine ⟨he, hg, ?_⟩
    rw [he]
    have hg2 : (s.setOrder orderId
        { o with status := .CANCELED, updatedAt := now }).getOrder orderId =
        some { o with status := .CANCELED, updatedAt := now } :=
      getOrder_setOrder_self _ h
    simp only [cancelOrder, hg2]
    rfl

def c5Order : Order :=
  { id := "B", instrument := "ETH-PERPETUAL", type := .MARKET, side := .SELL,
    price := 0, amount := 2, filledAmount := 0, stopPrice := 0,
    reduceOnly := false, postOnly := false, status := .OPEN,
    label := "", createdAt := 0, updatedAt := 0 }

def c5S : OMState := ⟨[("B", c5Order)], 2⟩

/-- C5, witness: canceling the OPEN order "B" succeeds, stores the
CANCELED order, and a second cancel returns false without change. -/
theorem claim_C5_witness :
    cancelOrder c5S "B" 3 =
      ⟨true, c5S.setOrder "B" { c5Order with status := .CANCELED, updatedAt := 3 },
        [.orderCanceled "B", .statusChanged "B" c5Order.status .CANCELED]⟩ ∧
    (cancelOrder c5S "B" 3).state.getOrder "B" =
      some { c5Order with status := .CANCELED, updatedAt := 3 } ∧
    cancelOrder (cancelOrder c5S "B" 3).state "B" 9 =
      ⟨false, (cancelOrder c5S "B" 3).state, []⟩ :=
  (claim_C5 c5S "B" 3 9).2.2 c5Order (by decide) (by decide)

/-- C9: `modifyOrder` encodes "leave unchanged" as the argument value 0
(per the header's documented defaults): with price 0 the price is kept,
with amount 0 the amount is kept, and a successful modification can
only produce a zero price or amount if the order already had it. -/
theorem claim_C9 (s : OMState) (orderId : String) (pr am : ℚ) (now : Nat)
    (o : Order) (h : s.getOrder orderId = some o)
    (ht : o.status.isTerminal = false) :
    (∀ o2, (modifyOrder s orderId 0 am now).res = .ok o2 →
      o2.price = o.price) ∧
    (∀ o2, (modifyOrder s orderId pr 0 now).res = .ok o2 →
      o2.amount = o.amount) ∧
    (∀ o2, (modifyOrder s orderId pr am now).res = .ok o2 →
      (o2.price = 0 → o.price = 0) ∧ (o2.amount = 0 → o.amount = 0)) := by
  refine ⟨?_, ?_, ?_⟩
  · intro o2 hres
    rcases modifyOrder_cases s orderId 0 am now with ⟨e, hc⟩ | ⟨o1, hpre, _, _, hc⟩
    · rw [hc] at hres
      exact absurd hres (by simp)
    · rw [hpre] at h
      have ho : o1 = o := Option.some_inj.mp h
      subst ho
      rw [hc] at hres
      simp only [OpResult.res] at hres
      rw [← Except.ok.inj hres]
      simp
  · intro o2 hres
    rcases modifyOrder_cases s orderId pr 0 now with ⟨e, hc⟩ | ⟨o1, hpre, _, _, hc⟩
    · rw [hc] at hres
      exact absurd hres (by simp)
    · rw [hpre] at h
      have ho : o1 = o := Option.some_inj.mp h
      subst ho
      rw [hc] at hres
      simp only [OpResult.res] at hres
      rw [← Except.ok.inj hres]
      simp
  · intro o2 hres
    rcases modifyOrder_cases s orderId pr am now with ⟨e, hc⟩ | ⟨o1, hpre, _, _, hc⟩
    · rw [hc] at hres
      exact absurd hres (by simp)
    · rw [hpre] at h
      have ho : o1 = o := Option.some_inj.mp h
      subst ho
      rw [hc] at hres
      simp only [OpResult.res] at hres
      rw [← Except.ok.inj hres]
      constructor
      · intro hp
        by_cases hz : pr ≠ 0
        · simp only [if_pos hz] at hp
          exact absurd hp hz
        · simpa [hz] using hp
      · intro ha
        by_cases hz : am ≠ 0
        · simp only [if_pos hz] at ha
          exact absurd ha hz
        · simpa [hz] using ha

def c9Order : Order :=
  { id := "C", instrument := "BTC-PERPETUAL", type := .LIMIT, side := .BUY,
    price := 5, amount := 10, filledAmount := 0, stopPrice := 0,
    reduceOnly := false, postOnly := false, status := .OPEN,
    label := "", createdAt := 0, updatedAt := 0 }

def c9S : OMState := ⟨[("C", c9Order)], 2⟩

/-- C9, witness: modifying order "C" with price argument 0 keeps its
price 5. -/
theorem claim_C9_witness :
    ({ c9Order with amount := 7, updatedAt := 1 } : Order).price =
      c9Order.price :=
  (claim_C9 c9S "C" 0 7 1 c9Order (by decide) (by decide)).1
    { c9Order with amount := 7, updatedAt := 1 } (by decide)

/-! ### Claim C8 -/

/-- Running a sequence of `createOrder` requests; returns the final
registry state and, for each successful call in order, the returned
order id paired with the counter value it was issued from. -/
def runCreates : OMState → List (OrderParams × Nat) → OMState × List (String × Nat)
  | s, [] => (s, [])
  | s, (p, now) :: rest =>
    match (createOrder s p now).res with
    | .ok o =>
      ((runCreates (createOrder s p now).state rest).1,
        (o.id, s.counter) :: (runCreates (createOrder s p now).state rest).2)
    | .error _ => runCreates (createOrder s p now).state rest

theorem runCreates_spec (s : OMState) (reqs : List (OrderParams × Nat)) :
    s.counter ≤ (runCreates s reqs).1.counter ∧
    (∀ pr ∈ (runCreates s reqs).2,
      pr.1 = generateOrderId pr.2 ∧ s.counter ≤ pr.2 ∧
        pr.2 < (runCreates s reqs).1.counter) ∧
    ((runCreates s reqs).2.map Prod.snd).Pairwise (· < ·) := by
  induction reqs generalizing s with
  | nil => simp [runCreates]
  | cons hd rest ih =>
    obtain ⟨p, now⟩ := hd
    rcases createOrder_cases s p now with hc | ⟨hpos, hc⟩
    · rw [runCreates, hc]
      simpa using ih s
    · rw [runCreates, hc]
      obtain ⟨ih1, ih2, ih3⟩ :=
        ih ⟨s.orders ++ [(generateOrderId s.counter,
          newOrder (generateOrderId s.counter) p now)], s.counter + 1⟩
      refine ⟨by exact le_trans (Nat.le_succ _) ih1, ?_, ?_⟩
      · intro pr hpr
        rcases List.mem_cons.mp hpr with rfl | htl
        · exact ⟨rfl, le_refl _, lt_of_lt_of_le (Nat.lt_succ_self _) ih1⟩
        · obtain ⟨hg, hle, hlt⟩ := ih2 pr htl
          exact ⟨hg, le_trans (Nat.le_succ _) hle, hlt⟩
      · rw [List.map_cons, List.pairwise_cons]
        refine ⟨?_, ih3⟩
        intro k hk
        obtain ⟨pr, hpr, hpr2⟩ := List.mem_map.mp hk
        obtain ⟨_, hle, _⟩ := ih2 pr hpr
        have hle2 : s.counter + 1 ≤ pr.2 := hle
        omega

/-- C8: over any finite sequence of `createOrder` calls, the ids of the
successful calls are pairwise distinct, each id is derived from the
counter value at its issuance, the counter values are strictly
increasing in issuance order, and every issued counter value lies
between the starting counter and the final counter (so no value is ever
reused).  Concurrency is modelled as the linearization of the calls
realized by the atomic counter. -/
theorem claim_C8 (s : OMState) (reqs : List (OrderParams × Nat)) :
    ((runCreates s reqs).2.map Prod.fst).Nodup ∧
    ((runCreates s reqs).2.map Prod.snd).Pairwise (· < ·) ∧
    (∀ pr ∈ (runCreates s reqs).2,
      pr.1 = generateOrderId pr.2 ∧ s.counter ≤ pr.2 ∧
        pr.2 < (runCreates s reqs).1.counter) := by
  obtain ⟨h1, h2, h3⟩ := runCreates_spec s reqs
  refine ⟨?_, h3, h2⟩
  have hmap : (runCreates s reqs).2.map Prod.fst =
      ((runCreates s reqs).2.map Prod.snd).map generateOrderId := by
    rw [List.map_map]
    exact List.map_congr_left fun pr hpr => (h2 pr hpr).1
  rw [hmap]
  exact List.Nodup.map generateOrderId_injective
    (List.Pairwise.imp ne_of_lt h3)

def c8Params : OrderParams :=
  { instrument := "BTC-25MAR22", type := .MARKET, side := .BUY,
    price := 0, amount := 1, stopPrice := 0, reduceOnly := false,
    postOnly := false, label := "" }

/-- C8, witness: two successful creations from the initial state issue
"ORD-1" from counter 1, with the counter then strictly above it. -/
theorem claim_C8_witness :
    (("ORD-1" : String), (1 : Nat)).1 = generateOrderId ("ORD-1", 1).2 ∧
      (⟨[], 1⟩ : OMState).counter ≤ (("ORD-1" : String), (1 : Nat)).2 ∧
      (("ORD-1" : String), (1 : Nat)).2 <
        (runCreates ⟨[], 1⟩ [(c8Params, 0), (c8Params, 1)]).1.counter :=
  (claim_C8 ⟨[], 1⟩ [(c8Params, 0), (c8Params, 1)]).2.2
    ("ORD-1", 1) (by decide)

/-! ### The distribution server (`ws_server.h`) -/

/-- From `ws_server.h` lines 28-33: a connected client with its id,
subscription set, liveness flag and send callback.  The opaque send
callback is modelled by its observable outcome: whether handing a given
payload to it succeeds. -/
structure Client where
  id : Nat
  subscriptions : List String
  isAlive : Bool
  send : String → Bool

/-- From `ws_server.h` lines 102-104: the server's client registry
`m_clients` and the id source `m_nextClientId` (initially 1). -/
structure WSState where
  clients : List (Nat × Client)
  nextClientId : Nat

/-- Modelled from the spec: a client is handed a payload for a channel
exactly when it is live and its subscription set contains the channel. -/
def wantsChannel (ch : String) (c : Client) : Bool :=
  c.isAlive && c.subscriptions.contains ch

/-- Outcome of one `broadcast` call: the returned count of successful
hand-offs, the surviving client registry, the per-client delivery
attempts in iteration order (client id, delivery succeeded), and the
clients removed after a failed delivery (recorded with their liveness
flag cleared). -/
structure BCast where
  count : Nat
  clients : List (Nat × Client)
  attempts : List (Nat × Bool)
  removed : List (Nat × Client)

/-- Modelled from the spec: `WSServer::broadcast` (body not in the
source tree).  Iterates the registry; every live client subscribed to
the channel is handed the payload; a successful hand-off is counted, a
failed one marks the client dead and removes it from the registry
without aborting the remaining deliveries or surfacing an error. -/
def broadcastAux (ch msg : String) : List (Nat × Client) → BCast
  | [] => ⟨0, [], [], []⟩
  | (cid, c) :: rest =>
    let r := broadcastAux ch msg rest
    if wantsChannel ch c then
      if c.send msg then
        ⟨r.count + 1, (cid, c) :: r.clients, (cid, true) :: r.attempts, r.removed⟩
      else
        ⟨r.count, r.clients, (cid, false) :: r.attempts,
          (cid, { c with isAlive := false }) :: r.removed⟩
    else
      ⟨r.count, (cid, c) :: r.clients, r.attempts, r.removed⟩

def WSState.broadcast (s : WSState) (symbol message : String) : BCast :=
  broadcastAux symbol message s.clients

/-- The server state after a broadcast: the surviving registry. -/
def WSState.afterBroadcast (s : WSState) (symbol message : String) : WSState :=
  { s with clients := (s.broadcast symbol message).clients }

/-- From `ws_server.h` line 74: the number of registered clients. -/
def WSState.getClientCount (s : WSState) : Nat :=
  s.clients.length

theorem broadcastAux_spec (ch msg : String) (l : List (Nat × Client)) :
    (broadcastAux ch msg l).attempts =
      (l.filter fun p => wantsChannel ch p.2).map (fun p => (p.1, p.2.send msg)) ∧
    (broadcastAux ch msg l).count =
      ((l.filter fun p => wantsChannel ch p.2).filter fun p => p.2.send msg).length ∧
    (broadcastAux ch msg l).clients =
      (l.filter fun p => !(wantsChannel ch p.2) || p.2.send msg) ∧
    (broadcastAux ch msg l).removed =
      ((l.filter fun p => wantsChannel ch p.2 && !(p.2.send msg)).map
        fun p => (p.1, { p.2 with isAlive := false })) := by
  induction l with
  | nil => exact ⟨rfl, rfl, rfl, rfl⟩
  | cons hd tl ih =>
    obtain ⟨cid, c⟩ := hd
    obtain ⟨ih1, ih2, ih3, ih4⟩ := ih
    by_cases hw : wantsChannel ch c = true
    · by_cases hs : c.send msg = true
      · simp [broadcastAux, hw, hs, ih1, ih2, ih3, ih4]
      · simp only [Bool.not_eq_true] at hs
        simp [broadcastAux, hw, hs, ih1, ih2, ih3, ih4]
    · simp only [Bool.not_eq_true] at hw
      simp [broadcastAux, hw, ih1, ih2, ih3, ih4]

theorem nodup_keys_eq {l : List (Nat × Client)}
    (h : (l.map Prod.fst).Nodup) {k : Nat} {a b : Client}
    (ha : (k, a) ∈ l) (hb : (k, b) ∈ l) : a = b := by
  induction l with
  | nil => cases ha
  | cons hd tl ih =>
    obtain ⟨k0, c0⟩ := hd
    rw [List.map_cons, List.nodup_cons] at h
    rcases List.mem_cons.mp ha with he | hta
    · rcases List.mem_cons.mp hb with he2 | htb
      · rw [((Prod.mk.injEq _ _ _ _).mp he).2,
          ((Prod.mk.injEq _ _ _ _).mp he2).2]
      · obtain ⟨hk, _⟩ := (Prod.mk.injEq _ _ _ _).mp he
        exact absurd (List.mem_map.mpr ⟨(k, b), htb, hk⟩) h.1
    · rcases List.mem_cons.mp hb with he2 | htb
      · obtain ⟨hk, _⟩ := (Prod.mk.injEq _ _ _ _).mp he2
        exact absurd (List.mem_map.mpr ⟨(k, a), hta, hk⟩) h.1
      · exact ih h.2 hta htb

theorem length_filter_lt_of_mem_false {α : Type} (p : α → Bool)
    (l : List α) (x : α) (hx : x ∈ l) (hp : p x = false) :
    (l.filter p).length < l.length := by
  induction l with
  | nil => cases hx
  | cons hd tl ih =>
    rcases List.mem_cons.mp hx with rfl | htl
    · rw [List.filter_cons_of_neg (by simp [hp])]
      exact Nat.lt_succ_of_le (List.length_filter_le p tl)
    · by_cases hh : p hd = true
      · rw [List.filter_cons_of_pos hh]
        simpa using Nat.succ_lt_succ (ih htl)
      · rw [List.filter_cons_of_neg (by simpa using hh)]
        exact Nat.lt_succ_of_lt (ih htl)

/-! ### Claim C6 -/

/-- C6: `broadcast` hands the payload to exactly the registered clients
that are live and whose subscription set contains the channel — every
attempt corresponds to such a client, and every such client receives an
attempt — and the returned count is the number of successful
hand-offs. -/
theorem claim_C6 (s : WSState) (ch msg : String) :
    (∀ (cid : Nat) (b : Bool), (cid, b) ∈ (s.broadcast ch msg).attempts →
      ∃ c : Client, (cid, c) ∈ s.clients ∧ c.isAlive = true ∧
        ch ∈ c.subscriptions ∧ b = c.send msg) ∧
    (∀ (cid : Nat) (c : Client), (cid, c) ∈ s.clients → c.isAlive = true →
      ch ∈ c.subscriptions →
      (cid, c.send msg) ∈ (s.broadcast ch msg).attempts) ∧
    (s.broadcast ch msg).count =
      ((s.broadcast ch msg).attempts.filter fun a => a.2).length := by
  obtain ⟨h1, h2, h3, h4⟩ := broadcastAux_spec ch msg s.clients
  refine ⟨?_, ?_, ?_⟩
  · intro cid b hmem
    have hmem2 : (cid, b) ∈ (broadcastAux ch msg s.clients).attempts := hmem
    rw [h1] at hmem2
    obtain ⟨p, hp, hpe⟩ := List.mem_map.mp hmem2
    obtain ⟨pk, pc⟩ := p
    obtain ⟨hpl, hpw⟩ := List.mem_filter.mp hp
    obtain ⟨hk, hb⟩ := (Prod.mk.injEq _ _ _ _).mp hpe
    subst hk
    rw [wantsChannel, Bool.and_eq_true] at hpw
    exact ⟨pc, hpl, hpw.1, List.mem_of_elem_eq_true hpw.2, hb.symm⟩
  · intro cid c hmem halive hsub
    have hw : wantsChannel ch c = true := by
      rw [wantsChannel, Bool.and_eq_true]
      exact ⟨halive, List.elem_eq_true_of_mem hsub⟩
    show (cid, c.send msg) ∈ (broadcastAux ch msg s.clients).attempts
    rw [h1]
    exact List.mem_map.mpr ⟨(cid, c), List.mem_filter.mpr ⟨hmem, hw⟩, rfl⟩
  · show (broadcastAux ch msg s.clients).count =
      ((broadcastAux ch msg s.clients).attempts.filter fun a => a.2).length
    rw [h2, h1, List.filter_map, List.length_map]
    rfl

def c6a : Client := ⟨1, ["book.BTC-PERPETUAL.100ms"], true, fun _ => true⟩

def c6b : Client := ⟨2, ["book.BTC-PERPETUAL.100ms"], true, fun _ => true⟩

def c6c : Client := ⟨3, ["book.ETH-PERPETUAL.100ms"], true, fun _ => true⟩

def c6S : WSState := ⟨[(1, c6a), (2, c6b), (3, c6c)], 4⟩

/-- C6, witness (spec scenario C): with two clients subscribed to
"book.BTC-PERPETUAL.100ms" and a third subscribed only to
"book.ETH-PERPETUAL.100ms", broadcasting on the first channel attempts
delivery to client 1, returns 2, and the attempts are exactly clients 1
and 2. -/
theorem claim_C6_witness :
    ((1 : Nat), c6a.send "payload") ∈
      (c6S.broadcast "book.BTC-PERPETUAL.100ms" "payload").attempts ∧
    (c6S.broadcast "book.BTC-PERPETUAL.100ms" "payload").count = 2 ∧
    (c6S.broadcast "book.BTC-PERPETUAL.100ms" "payload").attempts =
      [(1, true), (2, true)] :=
  ⟨(claim_C6 c6S "book.BTC-PERPETUAL.100ms" "payload").2.1 1 c6a
      (List.Mem.head _) rfl (by decide),
    by decide, by decide⟩

/-! ### Claim C7 -/

/-- C7: a delivery failure during `broadcast` is confined to the failing
client: it is recorded dead (liveness flag false) and removed from the
registry, no entry under its id survives, `getClientCount` strictly
decreases, no later broadcast attempts delivery to it, delivery is
still attempted to every other live subscribed client, and the returned
count still counts every successful hand-off. -/
theorem claim_C7 (s : WSState) (ch msg : String) (cid : Nat) (c : Client)
    (hmem : (cid, c) ∈ s.clients)
    (hnodup : (s.clients.map Prod.fst).Nodup)
    (halive : c.isAlive = true) (hsub : ch ∈ c.subscriptions)
    (hfail : c.send msg = false) :
    (cid, { c with isAlive := false }) ∈ (s.broadcast ch msg).removed ∧
    (∀ c2 : Client, (cid, c2) ∉ (s.afterBroadcast ch msg).clients) ∧
    (s.afterBroadcast ch msg).getClientCount < s.getClientCount ∧
    (∀ ch2 msg2 : String, ∀ b : Bool,
      (cid, b) ∉ ((s.afterBroadcast ch msg).broadcast ch2 msg2).attempts) ∧
    (∀ (cid2 : Nat) (c2 : Client), (cid2, c2) ∈ s.clients →
      c2.isAlive = true → ch ∈ c2.subscriptions →
      (cid2, c2.send msg) ∈ (s.broadcast ch msg).attempts) ∧
    (s.broadcast ch msg).count =
      ((s.clients.filter fun p => wantsChannel ch p.2).filter
        fun p => p.2.send msg).length := by
  obtain ⟨h1, h2, h3, h4⟩ := broadcastAux_spec ch msg s.clients
  have hw : wantsChannel ch c = true := by
    rw [wantsChannel, Bool.and_eq_true]
    exact ⟨halive, List.elem_eq_true_of_mem hsub⟩
  have hb : ∀ c2 : Client, (cid, c2) ∉ (s.afterBroadcast ch msg).clients := by
    intro c2 hmem2
    have hmem3 : (cid, c2) ∈ (broadcastAux ch msg s.clients).clients := hmem2
    rw [h3] at hmem3
    obtain ⟨hl, hpred⟩ := List.mem_filter.mp hmem3
    have hcc : c2 = c := nodup_keys_eq hnodup hl hmem
    subst hcc
    rw [hw, hfail] at hpred
    simp at hpred
  refine ⟨?_, hb, ?_, ?_, ?_, ?_⟩
  · show (cid, { c with isAlive := false }) ∈
      (broadcastAux ch msg s.clients).removed
    rw [h4]
    refine List.mem_map.mpr ⟨(cid, c), List.mem_filter.mpr ⟨hmem, ?_⟩, rfl⟩
    rw [hw, hfail]
    rfl
  · show (broadcastAux ch msg s.clients).clients.length < s.clients.length
    rw [h3]
    refine length_filter_lt_of_mem_false _ _ (cid, c) hmem ?_
    show (!(wantsChannel ch c) || c.send msg) = false
    rw [hw, hfail]
    rfl
  · intro ch2 msg2 b hmem2
    have hmem3 : (cid, b) ∈
        (broadcastAux ch2 msg2 (s.afterBroadcast ch msg).clients).attempts :=
      hmem2
    rw [(broadcastAux_spec ch2 msg2 _).1] at hmem3
    obtain ⟨p, hp, hpe⟩ := List.mem_map.mp hmem3
    obtain ⟨pk, pc⟩ := p
    obtain ⟨hpl, _⟩ := List.mem_filter.mp hp
    obtain ⟨hk, _⟩ := (Prod.mk.injEq _ _ _ _).mp hpe
    subst hk
    exact hb pc hpl
  · intro cid2 c2 hmem2 halive2 hsub2
    have hw2 : wantsChannel ch c2 = true := by
      rw [wantsChannel, Bool.and_eq_true]
      exact ⟨halive2, List.elem_eq_true_of_mem hsub2⟩
    show (cid2, c2.send msg) ∈ (broadcastAux ch msg s.clients).attempts
    rw [h1]
    exact List.mem_map.mpr ⟨(cid2, c2), List.mem_filter.mpr ⟨hmem2, hw2⟩, rfl⟩
  · exact h2

def c7bad : Client := ⟨1, ["X"], true, fun _ => false⟩

def c7good : Client := ⟨2, ["X"], true, fun _ => true⟩

def c7S : WSState := ⟨[(1, c7bad), (2, c7good)], 3⟩

/-- C7, witness (spec scenario D): client 1's delivery fails, so after
the broadcast the client count has dropped, while the returned count
still counts the successful delivery to client 2. -/
theorem claim_C7_witness :
    (c7S.afterBroadcast "X" "p").getClientCount < c7S.getClientCount ∧
    (c7S.broadcast "X" "p").count =
      ((c7S.clients.filter fun p => wantsChannel "X" p.2).filter
        fun p => p.2.send "p").length :=
  ⟨(claim_C7 c7S "X" "p" 1 c7bad (List.Mem.head _) (by decide) rfl
      (by decide) rfl).2.2.1,
    (claim_C7 c7S "X" "p" 1 c7bad (List.Mem.head _) (by decide) rfl
      (by decide) rfl).2.2.2.2.2⟩

/-! ### Claim C10 -/

/-- From `main.cpp` lines 89-102: the orchestration loop subscribes to
the exchange channel "book.<instrument>.100ms" for each instrument. -/
def exchangeChannel (instrument : String) : String :=
  "book." ++ instrument ++ ".100ms"

/-- From `main.cpp` line 95: the market-data handler re-broadcasts the
event payload under the bare instrument name, not the exchange channel
name. -/
def onMarketData (server : WSState) (instrument msgData : String) : BCast :=
  server.broadcast instrument msgData

/-- C10: the orchestration loop re-publishes each market event with
`broadcast(instrument, ...)`; the bare instrument name differs from the
exchange channel name "book.<instrument>.100ms", so a downstream client
subscribed only to the full exchange channel name is handed none of the
re-published events. -/
theorem claim_C10 (server : WSState) (instrument msgData : String)
    (cid : Nat) (c : Client)
    (hmem : (cid, c) ∈ server.clients)
    (hnodup : (server.clients.map Prod.fst).Nodup)
    (hsubs : c.subscriptions = [exchangeChannel instrument]) :
    onMarketData server instrument msgData =
      server.broadcast instrument msgData ∧
    exchangeChannel instrument ≠ instrument ∧
    ∀ b : Bool, (cid, b) ∉ (onMarketData server instrument msgData).attempts := by
  have hne : exchangeChannel instrument ≠ instrument := by
    intro heq
    have hlen := congrArg String.length heq
    rw [exchangeChannel, String.length_append, String.length_append,
      show ("book." : String).length = 5 from rfl,
      show (".100ms" : String).length = 6 from rfl] at hlen
    omega
  refine ⟨rfl, hne, ?_⟩
  intro b hmem2
  have hmem3 : (cid, b) ∈
      (broadcastAux instrument msgData server.clients).attempts := hmem2
  rw [(broadcastAux_spec instrument msgData server.clients).1] at hmem3
  obtain ⟨p, hp, hpe⟩ := List.mem_map.mp hmem3
  obtain ⟨pk, pc⟩ := p
  obtain ⟨hpl, hpw⟩ := List.mem_filter.mp hp
  obtain ⟨hk, _⟩ := (Prod.mk.injEq _ _ _ _).mp hpe
  subst hk
  have hcc : pc = c := nodup_keys_eq hnodup hpl hmem
  subst hcc
  rw [wantsChannel, hsubs, Bool.and_eq_true] at hpw
  have hx := List.mem_of_elem_eq_true hpw.2
  rw [List.mem_singleton] at hx
  exact hne hx.symm

def c10c : Client := ⟨1, [exchangeChannel "BTC-PERPETUAL"], true, fun _ => true⟩

def c10S : WSState := ⟨[(1, c10c)], 2⟩

/-- C10, witness: a client subscribed only to
"book.BTC-PERPETUAL.100ms" is not among the delivery attempts of the
re-published "BTC-PERPETUAL" market event. -/
theorem claim_C10_witness :
    ((1 : Nat), (true : Bool)) ∉
      (onMarketData c10S "BTC-PERPETUAL" "payload").attempts :=
  (claim_C10 c10S "BTC-PERPETUAL" "payload" 1 c10c (List.Mem.head _)
    (by decide) rfl).2.2 true

end Cryptionix
